import Mathlib

/-!
Shallow embedding of the deploy-record store of this repository.

The authoritative persistence module is src/lib/db.ts (Redis-only variant):
`coerceRecord`, `resolveDeployedAt`, `addDeployRecord`, `getLatestDeployRecords`,
`getAllProjects`, together with the key constants of src/lib/redis.ts and the
`DeployStatus` / `DeployRecord` / `CreateDeployPayload` types of the repository.
The `/api/deploy` route handlers (GET with the limit clamp and project-filter
parsing, POST with the truthiness validation loop, the `deployedAt`
pre-conversion and the unchecked `status` cast) live at the tail of
src/app/youpik/page.tsx, which concatenates the dashboard page with the route
module; they are embedded here from that source.

Modelling conventions:
- JavaScript timestamps (milliseconds since epoch) are `Int`; `Date` parsing and
  `toISOString` rendering are parameters of a `TimeCtx` (an arbitrary parse
  function `String → Option Int`, `none` standing for an Invalid Date / NaN, and
  an arbitrary rendering `Int → String`).
- Redis string values reach the code either as raw JSON strings or as already
  deserialized objects; `coerceRecord` treats both identically, so a stored
  value is modelled post-parse: `vnull` (nil reply), `vbad` (a value whose JSON
  parse throws or that is neither string nor object), or `vparsed r` (a value
  that parses to the incomplete record `r`).  JavaScript truthiness of the `id`
  and `deployedAt` fields of a parsed object is nonemptiness of the string.
- `JSON.stringify` followed by a later parse of the same blob round-trips, so
  a write stores `vparsed record` directly.
- The JavaScript stable `Array.prototype.sort(cmp)` with the comparator
  `(a, b) => a.deployedAt < b.deployedAt ? 1 : -1` is modelled as a stable sort
  (`List.insertionSort`) with the order `strLe b.deployedAt a.deployedAt`,
  string comparison being code-unit lexicographic as in JavaScript.
- The 30-day key TTL set by `redis.set` is not modelled separately: every read
  in a claim happens at the single instant `TimeCtx.nowMs`, and the read path
  filters by the same 30-day window anyway.
-/

namespace DeployList

/-- Deployment status, from the `DeployStatus` union type of the repository. -/
inductive DeployStatus where
| success
| failed
| running
| canceled
deriving DecidableEq, Repr

/-- The name of a `DeployStatus` value, as it appears on the wire. -/
def statusName : DeployStatus → String
| DeployStatus.success => "success"
| DeployStatus.failed => "failed"
| DeployStatus.running => "running"
| DeployStatus.canceled => "canceled"

/-- A stored deploy record, from the `DeployRecord` interface of the
repository.  The `status` field is typed `DeployStatus` in TypeScript, but
that annotation is erased at runtime and the route handler casts the incoming
JSON value unchecked, so the runtime-faithful type of the field is `String`. -/
structure DeployRecord where
  id : String
  title : String
  projectName : String
  operator : String
  environment : String
  branch : String
  commit : String
  note : Option String
  deployedAt : String
  status : String
deriving DecidableEq, Repr

/-- An incoming create payload, from the `CreateDeployPayload` interface of
the repository (`status` runtime-typed as `String`, as for `DeployRecord`). -/
structure CreateDeployPayload where
  title : String
  projectName : String
  operator : String
  environment : String
  branch : String
  commit : String
  note : Option String
  deployedAt : Option String
  status : String
deriving DecidableEq, Repr

/-- A raw value read back from storage, modelled post-JSON-parse. -/
inductive RawValue where
| vnull
| vbad
| vparsed (r : DeployRecord)
deriving DecidableEq, Repr

/-- Time context: the current instant plus the `Date` parse and ISO rendering
functions, kept abstract because JavaScript date parsing is host behaviour. -/
structure TimeCtx where
  nowMs : Int
  parseDate : String → Option Int
  toISO : Int → String

/-- Code-unit lexicographic strict order on character lists, as JavaScript
compares strings. -/
def strLtData : List Char → List Char → Bool
| [], [] => false
| [], _ :: _ => true
| _ :: _, [] => false
| a :: as, b :: bs => if a < b then true else if b < a then false else strLtData as bs

/-- JavaScript string strict order. -/
def strLt (a b : String) : Bool := strLtData a.data b.data

/-- JavaScript string order: `a <= b` is the negation of `b < a`. -/
def strLe (a b : String) : Bool := !(strLt b a)

/-- JavaScript `String.prototype.trim`: strip leading and trailing whitespace. -/
def jsTrim (s : String) : String :=
  String.mk (((s.data.dropWhile Char.isWhitespace).reverse.dropWhile Char.isWhitespace).reverse)

/-- From src/lib/redis.ts: key of the legacy list. -/
def DEPLOY_KEY : String := "deploy_records"

/-- From src/lib/redis.ts: key of the project-name set. -/
def PROJECT_SET_KEY : String := "deploy_projects"

/-- From src/lib/redis.ts: key of the time-sorted index. -/
def DEPLOY_ZSET_KEY : String := "deploy_records_z"

/-- From src/lib/redis.ts: key base of single-record keys (`deploy_record:`). -/
def DEPLOY_RECORD_KEY_BASE : String := "deploy_record:"

/-- Key of the single-record blob for a given id. -/
def deployRecordKey (id : String) : String := DEPLOY_RECORD_KEY_BASE ++ id

/-- From src/lib/db.ts: storage cap `MAX_ITEMS = 200`. -/
def MAX_ITEMS : Nat := 200

/-- From src/lib/db.ts: `THIRTY_DAYS_MS = 30 * 24 * 60 * 60 * 1000`. -/
def THIRTY_DAYS_MS : Int := 30 * 24 * 60 * 60 * 1000

/-- From src/lib/db.ts `coerceRecord`: accept a parsed value whose `id` and
`deployedAt` are truthy, reject nil and unparsable values. -/
def coerceRecord : RawValue → Option DeployRecord
| RawValue.vnull => none
| RawValue.vbad => none
| RawValue.vparsed r => if r.id = "" then none else if r.deployedAt = "" then none else some r

/-- From src/lib/db.ts `resolveDeployedAt`: an absent, blank or unparsable
input yields the current instant, otherwise the parsed instant re-rendered. -/
def resolveDeployedAt (ctx : TimeCtx) (input : Option String) : String :=
  let raw := jsTrim (input.getD (""))
  if raw = "" then ctx.toISO ctx.nowMs
  else
    match ctx.parseDate raw with
    | none => ctx.toISO ctx.nowMs
    | some t => ctx.toISO t

/-- The mutable Redis database state touched by src/lib/db.ts: the record
blobs, the time-sorted index, the legacy list and the project set. -/
structure RedisState where
  kv : List (String × RawValue)
  zset : List (String × Int)
  legacyList : List RawValue
  projectSet : List String
deriving DecidableEq, Repr

/-- Redis `SET`: update the value in place, or append the binding. -/
def kvSet (m : List (String × RawValue)) (k : String) (v : RawValue) : List (String × RawValue) :=
  if m.any (fun p => decide (p.1 = k)) then
    m.map (fun p => if p.1 = k then (k, v) else p)
  else m ++ [(k, v)]

/-- Redis `GET` of one key (a missing key reads as nil). -/
def kvLookup (m : List (String × RawValue)) (k : String) : RawValue :=
  match m.find? (fun p => decide (p.1 = k)) with
  | some p => p.2
  | none => RawValue.vnull

/-- Redis `ZADD`: update the score of an existing member, or append. -/
def zaddPairs (z : List (String × Int)) (member : String) (score : Int) : List (String × Int) :=
  if z.any (fun p => decide (p.1 = member)) then
    z.map (fun p => if p.1 = member then (member, score) else p)
  else z ++ [(member, score)]

/-- Redis `ZREMRANGEBYSCORE key lo hi`: drop members whose score lies in
the inclusive range. -/
def zremrangebyscore (z : List (String × Int)) (lo hi : Int) : List (String × Int) :=
  z.filter (fun p => !(decide (lo ≤ p.2) && decide (p.2 ≤ hi)))

/-- Redis `SADD`: add the member if absent. -/
def saddMember (s : List String) (x : String) : List String :=
  if x ∈ s then s else s ++ [x]

/-- From src/lib/db.ts `addDeployRecord`, successful (Redis configured) path:
build the record, `SET` its blob with a TTL, `ZADD` the time index, prune
index entries older than 30 days, `LPUSH`+`LTRIM` the legacy list, `SADD`
the project set.  The generated UUID is the `newId` parameter. -/
def addDeployRecord (ctx : TimeCtx) (newId : String) (payload : CreateDeployPayload)
    (st : RedisState) : DeployRecord × RedisState :=
  let record : DeployRecord :=
    { id := newId
      title := payload.title
      projectName := payload.projectName
      operator := payload.operator
      environment := payload.environment
      branch := payload.branch
      commit := payload.commit
      note := payload.note
      deployedAt := resolveDeployedAt ctx payload.deployedAt
      status := payload.status }
  let score : Int := (ctx.parseDate record.deployedAt).getD 0
  let kv1 := kvSet st.kv (deployRecordKey record.id) (RawValue.vparsed record)
  let z1 := zaddPairs st.zset record.id score
  let z2 := zremrangebyscore z1 0 (score - THIRTY_DAYS_MS - 1)
  let l1 := (RawValue.vparsed record :: st.legacyList).take MAX_ITEMS
  let p1 := saddMember st.projectSet record.projectName
  (record, { kv := kv1, zset := z2, legacyList := l1, projectSet := p1 })

/-- The record returned by `addDeployRecord`. -/
def addedRecord (ctx : TimeCtx) (newId : String) (payload : CreateDeployPayload)
    (st : RedisState) : DeployRecord :=
  (addDeployRecord ctx newId payload st).1

/-- The database state after `addDeployRecord`. -/
def addedState (ctx : TimeCtx) (newId : String) (payload : CreateDeployPayload)
    (st : RedisState) : RedisState :=
  (addDeployRecord ctx newId payload st).2

/-- A configured Redis backend: its database state plus one fault flag per
read operation used by the read paths, modelling a client call that throws
(network failure etc.). -/
structure Redis where
  st : RedisState
  failZrange : Bool
  failMget : Bool
  failLrange : Bool
  failSmembers : Bool
deriving DecidableEq, Repr

/-- Ordering used by `ZRANGE key 0 (MAX_ITEMS-1) REV`: score descending,
ties by member descending (the reverse of Redis set order). -/
def zsetRevOrd (p q : String × Int) : Prop :=
  q.2 < p.2 ∨ (p.2 = q.2 ∧ strLe q.1 p.1 = true)

instance : DecidableRel zsetRevOrd := fun p q =>
  inferInstanceAs (Decidable (q.2 < p.2 ∨ (p.2 = q.2 ∧ strLe q.1 p.1 = true)))

/-- Member ids delivered by `redis.zrange(DEPLOY_ZSET_KEY, 0, MAX_ITEMS - 1, rev)`. -/
def zrangeIdsOf (r : Redis) : List String :=
  ((List.insertionSort zsetRevOrd r.st.zset).take MAX_ITEMS).map (fun p => p.1)

/-- `ZRANGE` as performed by the read path, subject to the fault flag. -/
def zrangeRevOp (r : Redis) : Except Unit (List String) :=
  if r.failZrange then Except.error () else Except.ok (zrangeIdsOf r)

/-- `MGET` as performed by the read path, subject to the fault flag. -/
def mgetOp (r : Redis) (keys : List String) : Except Unit (List RawValue) :=
  if r.failMget then Except.error () else Except.ok (keys.map (kvLookup r.st.kv))

/-- Items delivered by `redis.lrange(DEPLOY_KEY, 0, MAX_ITEMS - 1)`. -/
def lrangeItemsOf (r : Redis) : List RawValue :=
  r.st.legacyList.take MAX_ITEMS

/-- `LRANGE` as performed by the read paths, subject to the fault flag. -/
def lrangeOp (r : Redis) : Except Unit (List RawValue) :=
  if r.failLrange then Except.error () else Except.ok (lrangeItemsOf r)

/-- `SMEMBERS` as performed by `getAllProjects`, subject to the fault flag. -/
def smembersOp (r : Redis) : Except Unit (List String) :=
  if r.failSmembers then Except.error () else Except.ok r.st.projectSet

/-- `.map(coerceRecord).filter(Boolean)` applied to a batch of raw values. -/
def filterCoerce (vs : List RawValue) : List DeployRecord :=
  vs.filterMap coerceRecord

/-- `byId.set(r.id, r)` on a JavaScript `Map` modelled as an association list
in key insertion order: update the binding in place, or append it. -/
def mapSet (m : List (String × DeployRecord)) (r : DeployRecord) : List (String × DeployRecord) :=
  if m.any (fun p => decide (p.1 = r.id)) then
    m.map (fun p => if p.1 = r.id then (r.id, r) else p)
  else m ++ [(r.id, r)]

/-- The dedup map of `getLatestDeployRecords`: insert every list record, then
every time-index record (so the time-index version wins on a shared id). -/
def buildById (fromList fromZset : List DeployRecord) : List (String × DeployRecord) :=
  (fromList ++ fromZset).foldl mapSet []

/-- Retention test of the read path, `new Date(r.deployedAt).getTime() >= min`
with `min = Date.now() - THIRTY_DAYS_MS`; an unparsable timestamp (NaN)
compares false. -/
def keepRetention (ctx : TimeCtx) (r : DeployRecord) : Bool :=
  match ctx.parseDate r.deployedAt with
  | some t => decide (ctx.nowMs - THIRTY_DAYS_MS ≤ t)
  | none => false

/-- Sort order of the read path: the comparator
`(a, b) => a.deployedAt < b.deployedAt ? 1 : -1`, newest first. -/
def recOrd (a b : DeployRecord) : Prop := strLe b.deployedAt a.deployedAt = true

instance : DecidableRel recOrd := fun a b =>
  inferInstanceAs (Decidable (strLe b.deployedAt a.deployedAt = true))

/-- Records obtained from the time index: ids from `ZRANGE`, blobs via `MGET`,
coerced. -/
def fromZsetOf (r : Redis) : List DeployRecord :=
  filterCoerce ((zrangeIdsOf r).map (fun id => kvLookup r.st.kv (deployRecordKey id)))

/-- Records obtained from the legacy list, coerced. -/
def fromListOf (r : Redis) : List DeployRecord :=
  filterCoerce (lrangeItemsOf r)

/-- Deduplicated, retention-filtered, optionally project-filtered candidate
records of the read path (before sorting and slicing). -/
def candidatesOf (ctx : TimeCtx) (r : Redis) (projectNames : Option (List String)) :
    List DeployRecord :=
  let base := ((buildById (fromListOf r) (fromZsetOf r)).map (fun p => p.2)).filter
    (keepRetention ctx)
  match projectNames with
  | none => base
  | some ps => if ps.length > 0 then base.filter (fun x => decide (x.projectName ∈ ps)) else base

/-- The list produced by a fault-free pass of the `try` block of
`getLatestDeployRecords`: sorted newest first, and sliced to `limit` when
nonempty. -/
def resultListOf (ctx : TimeCtx) (r : Redis) (limit : Nat) (projectNames : Option (List String)) :
    List DeployRecord :=
  let sorted := List.insertionSort recOrd (candidatesOf ctx r projectNames)
  if sorted.length > 0 then sorted.take limit else []

/-- The `try` block of src/lib/db.ts `getLatestDeployRecords`, line by line:
`ZRANGE` ids, `MGET` blobs (only when there are keys), `LRANGE` the legacy
list, merge with the time index winning, filter to the 30-day window, filter
by project, sort newest first, return the slice when nonempty. -/
def tryReadMerged (ctx : TimeCtx) (r : Redis) (limit : Nat)
    (projectNames : Option (List String)) : Except Unit (List DeployRecord) :=
  match zrangeRevOp r with
  | Except.error e => Except.error e
  | Except.ok ids =>
    let zsetKeys := ids.map deployRecordKey
    match (if zsetKeys.length > 0 then mgetOp r zsetKeys else Except.ok []) with
    | Except.error e => Except.error e
    | Except.ok zsetValues =>
      let fromZset := filterCoerce zsetValues
      match lrangeOp r with
      | Except.error e => Except.error e
      | Except.ok listItems =>
        let fromList := filterCoerce listItems
        let base := ((buildById fromList fromZset).map (fun p => p.2)).filter
          (keepRetention ctx)
        let filtered :=
          match projectNames with
          | none => base
          | some ps =>
            if ps.length > 0 then base.filter (fun x => decide (x.projectName ∈ ps)) else base
        let sorted := List.insertionSort recOrd filtered
        if sorted.length > 0 then Except.ok (sorted.take limit) else Except.ok []

/-- Error message thrown when no Redis backend is configured (the source
message is Chinese; rendered here in English, content preserved). -/
def redisNotConfiguredMsg : String :=
  "Redis not configured: set UPSTASH_REDIS_REST_URL and UPSTASH_REDIS_REST_TOKEN"

/-- From src/lib/db.ts `getLatestDeployRecords`: throw when Redis is not
configured, otherwise run the merged read and turn any storage failure into
an empty list (`catch ... ignore` followed by `return []`). -/
def getLatestDeployRecords (ctx : TimeCtx) (redis : Option Redis) (limit : Nat)
    (projectNames : Option (List String)) : Except String (List DeployRecord) :=
  match redis with
  | none => Except.error redisNotConfiguredMsg
  | some r =>
    match tryReadMerged ctx r limit projectNames with
    | Except.ok l => Except.ok l
    | Except.error _ => Except.ok []

/-- JavaScript `[...new Set(xs)]`: deduplicate keeping first occurrences. -/
def jsSetDedup (l : List String) : List String :=
  l.foldl (fun acc x => if x ∈ acc then acc else acc ++ [x]) []

/-- JavaScript `Array.prototype.sort()` on strings: ascending code-unit
lexicographic order, modelled as a stable sort by `strLe`. -/
def sortStrings (l : List String) : List String :=
  List.insertionSort (fun a b => strLe a b = true) l

/-- From src/lib/db.ts `getAllProjects`: prefer the project set, deduplicated
and sorted; when it is empty infer the projects from the legacy list; any
storage failure yields an empty list; no Redis configured throws. -/
def getAllProjects (redis : Option Redis) : Except String (List String) :=
  match redis with
  | none => Except.error redisNotConfiguredMsg
  | some r =>
    match smembersOp r with
    | Except.error _ => Except.ok []
    | Except.ok members =>
      if members.length > 0 then Except.ok (sortStrings (jsSetDedup members))
      else
        match lrangeOp r with
        | Except.error _ => Except.ok []
        | Except.ok items =>
          let inferred := jsSetDedup ((filterCoerce items).map (fun r => r.projectName))
          if inferred.length > 0 then Except.ok (sortStrings inferred) else Except.ok []

/-- The raw JSON body of a `POST /deploy` request as the route handler at
src/app/youpik/page.tsx (the file concatenates the dashboard page with the
deploy route module; the route is its tail) receives it: every field may be
absent, and present values are arbitrary strings — the handler validates only
truthiness and casts `status` without a runtime check. -/
structure DeployRouteBody where
  title : Option String
  projectName : Option String
  operator : Option String
  environment : Option String
  branch : Option String
  commit : Option String
  status : Option String
  note : Option String
  deployedAt : Option String
deriving DecidableEq, Repr

/-- JavaScript falsiness of an optional string field (`!body[key]`): absent or
the empty string. -/
def falsyField : Option String → Bool
| none => true
| some s => decide (s = "")

/-- The validation loop of the POST handler: the first required key (in the
code order title, projectName, operator, environment, branch, commit, status)
whose value is falsy. -/
def firstFalsyKey (b : DeployRouteBody) : Option String :=
  if falsyField b.title then some ("title")
  else if falsyField b.projectName then some ("projectName")
  else if falsyField b.operator then some ("operator")
  else if falsyField b.environment then some ("environment")
  else if falsyField b.branch then some ("branch")
  else if falsyField b.commit then some ("commit")
  else if falsyField b.status then some ("status")
  else none

/-- The 400 message of the validation loop (`missing field: <key>`). -/
def missingFieldMsg (k : String) : String := "missing field: " ++ k

/-- The message of the RangeError thrown by `toISOString` on an Invalid Date,
surfaced by the catch of the POST handler. -/
def invalidTimeMsg : String := "Invalid time value"

/-- The payload line `deployedAt: body.deployedAt ? new
Date(body.deployedAt).toISOString() : undefined` of the POST handler: a falsy
input stays absent; a truthy unparsable input makes `toISOString` throw
(caught by the route and turned into a 400); otherwise the parsed instant is
re-rendered. -/
def preconvertDeployedAt (ctx : TimeCtx) (input : Option String) :
    Except String (Option String) :=
  match input with
  | none => Except.ok none
  | some s =>
    if s = "" then Except.ok none
    else
      match ctx.parseDate s with
      | none => Except.error invalidTimeMsg
      | some t => Except.ok (some (ctx.toISO t))

/-- The `POST /deploy` route handler of src/app/youpik/page.tsx: reject with
400 on the first falsy required field, pre-convert `deployedAt` (a throw is
caught and becomes a 400), coerce `note` (falsy becomes absent), pass
`status` through verbatim (the unchecked cast), and persist via
`addDeployRecord` (whose redis-missing throw the catch also turns into a
400). -/
def POSTdeploy (ctx : TimeCtx) (newId : String) (b : DeployRouteBody)
    (redis : Option Redis) : Except (Nat × String) DeployRecord × Option Redis :=
  match firstFalsyKey b with
  | some k => (Except.error (400, missingFieldMsg k), redis)
  | none =>
    match preconvertDeployedAt ctx b.deployedAt with
    | Except.error msg => (Except.error (400, msg), redis)
    | Except.ok da =>
      let payload : CreateDeployPayload :=
        { title := b.title.getD ("")
          projectName := b.projectName.getD ("")
          operator := b.operator.getD ("")
          environment := b.environment.getD ("")
          branch := b.branch.getD ("")
          commit := b.commit.getD ("")
          note := match b.note with
                  | none => none
                  | some s => if s = "" then none else some s
          deployedAt := da
          status := b.status.getD ("") }
      match redis with
      | none => (Except.error (400, redisNotConfiguredMsg), none)
      | some r =>
        let res := addDeployRecord ctx newId payload r.st
        (Except.ok res.1, some { r with st := res.2 })

/-- JavaScript `x || d` applied to the result of `Number(...)`: absent input
gives `Number(null) = 0` and unparsable input gives NaN, both falsy (modelled
as `none`), and the numeric value 0 is falsy as well. -/
def numOr (q : Option Int) (d : Int) : Int :=
  match q with
  | none => d
  | some n => if n = 0 then d else n

/-- The limit of the GET handler at src/app/youpik/page.tsx:
`Math.max(1, Math.min(50, Number(searchParams.get("limit")) || 20))`. -/
def effectiveLimitJs (q : Option Int) : Int := max 1 (min 50 (numOr q 20))

/-- JavaScript `s.split(",")` over the character data. -/
def splitComma (s : String) : List String :=
  (s.data.foldr
    (fun c acc =>
      match acc with
      | [] => if c = ',' then [[], []] else [[c]]
      | g :: rest => if c = ',' then [] :: (g :: rest) else (c :: g) :: rest)
    [[]]).map String.mk

/-- The project-filter parsing of the GET handler: repeated `projectName`
parameters win; otherwise a truthy `projects` parameter is split on commas,
trimmed and stripped of falsy entries; otherwise no filter. -/
def parseProjects (multi : List String) (csv : Option String) : Option (List String) :=
  if multi.length > 0 then some multi
  else
    match csv with
    | none => none
    | some s =>
      if s = "" then none
      else some (((splitComma s).map jsTrim).filter (fun x => decide (x ≠ "")))

/-- The `GET /deploy` route handler of src/app/youpik/page.tsx: clamp the
limit, parse the project filter, query the store. -/
def GETdeploy (ctx : TimeCtx) (redis : Option Redis) (limitParam : Option Int)
    (multi : List String) (csv : Option String) : Except String (List DeployRecord) :=
  getLatestDeployRecords ctx redis (effectiveLimitJs limitParam).toNat
    (parseProjects multi csv)

/-- Every binding of the dedup map keys a record by its own id. -/
def pairConsistent (m : List (String × DeployRecord)) : Prop :=
  ∀ p ∈ m, p.1 = p.2.id

/-- The stored value `v` does not carry the record id `nid` (used to state
that a freshly generated id collides with nothing already in the store). -/
def freshId (nid : String) (v : RawValue) : Bool :=
  match coerceRecord v with
  | none => true
  | some rc => if rc.id = nid then false else true

/-- The Redis backend after a write performed through `addDeployRecord`. -/
def redisAfterAdd (ctx : TimeCtx) (newId : String) (payload : CreateDeployPayload)
    (r : Redis) : Redis :=
  { r with st := addedState ctx newId payload r.st }

/-- Concrete date-parse table for the executable instances below. -/
def tParse : String → Option Int := fun s =>
  if s = "T50" then some 50
  else if s = "T90" then some 90
  else if s = "T5" then some 5
  else none

/-- Concrete ISO rendering matching `tParse` on the instants used below. -/
def tISO : Int → String := fun t =>
  if t = 50 then ("T50")
  else if t = 90 then ("T90")
  else if t = 5 then ("T5")
  else ("TX")

/-- The concrete generated id used by the executable instances. -/
def idA : String := "a"

/-- Concrete context: now = 100 ms, so every test instant is in the window. -/
def ctxW : TimeCtx := { nowMs := 100, parseDate := tParse, toISO := tISO }

/-- Concrete context: now is past the window of every test instant. -/
def ctxOld : TimeCtx := { nowMs := THIRTY_DAYS_MS + 1000, parseDate := tParse, toISO := tISO }

/-- A concrete stored record with timestamp `T90`. -/
def recB : DeployRecord :=
  { id := "b", title := "t", projectName := "p", operator := "op", environment := "env",
    branch := "br", commit := "cm", note := none, deployedAt := "T90",
    status := "success" }

/-- A concrete create payload carrying the explicit timestamp `T50`. -/
def payloadA : CreateDeployPayload :=
  { title := "t", projectName := "p", operator := "op", environment := "env",
    branch := "br", commit := "cm", note := none, deployedAt := some ("T50"),
    status := "success" }

/-- The same payload without an explicit timestamp. -/
def payloadN : CreateDeployPayload :=
  { title := "t", projectName := "p", operator := "op", environment := "env",
    branch := "br", commit := "cm", note := none, deployedAt := none,
    status := "success" }

/-- The empty database state. -/
def stE : RedisState := { kv := [], zset := [], legacyList := [], projectSet := [] }

/-- A healthy backend over the empty state. -/
def redisE : Redis :=
  { st := stE, failZrange := false, failMget := false, failLrange := false,
    failSmembers := false }

/-- A database state holding the single record `recB`. -/
def stB : RedisState :=
  { kv := [("deploy_record:b", RawValue.vparsed recB)], zset := [("b", 90)],
    legacyList := [], projectSet := ["p"] }

/-- A healthy backend over `stB`. -/
def redisB : Redis :=
  { st := stB, failZrange := false, failMget := false, failLrange := false,
    failSmembers := false }

/-- A backend over `stB` whose every operation fails. -/
def redisF : Redis :=
  { st := stB, failZrange := true, failMget := true, failLrange := true,
    failSmembers := true }

/-- Time-index version of the shared id `a`, aged out under `ctxOld`. -/
def recZ : DeployRecord :=
  { id := "a", title := "zset", projectName := "p", operator := "op", environment := "env",
    branch := "br", commit := "cm", note := none, deployedAt := "T5",
    status := "success" }

/-- Legacy-list version of the shared id `a`, aged out under `ctxOld`. -/
def recL : DeployRecord :=
  { id := "a", title := "list", projectName := "p", operator := "op", environment := "env",
    branch := "br", commit := "cm", note := none, deployedAt := "T90",
    status := "success" }

/-- A state where the time index and the legacy list both carry the id `a`. -/
def st6 : RedisState :=
  { kv := [("deploy_record:a", RawValue.vparsed recZ)], zset := [("a", 5)],
    legacyList := [RawValue.vparsed recL], projectSet := ["p"] }

/-- A healthy backend over `st6`. -/
def redis6 : Redis :=
  { st := st6, failZrange := false, failMget := false, failLrange := false,
    failSmembers := false }

/-- A request body whose first falsy required field is `operator` (absent). -/
def bMissOp : DeployRouteBody :=
  { title := some ("t"), projectName := some ("p"), operator := none,
    environment := some ("env"), branch := some ("br"), commit := some ("cm"),
    status := some ("success"), note := none, deployedAt := none }

/-- A request body that passes the truthiness validation but carries a status
outside the `DeployStatus` union. -/
def bBogus : DeployRouteBody :=
  { title := some ("t"), projectName := some ("p"), operator := some ("op"),
    environment := some ("env"), branch := some ("br"), commit := some ("cm"),
    status := some ("bogus"), note := none, deployedAt := none }

/-- The payload the POST handler builds from `bBogus`. -/
def payloadBogus : CreateDeployPayload :=
  { title := "t", projectName := "p", operator := "op", environment := "env",
    branch := "br", commit := "cm", note := none, deployedAt := none,
    status := "bogus" }

/-- A backend whose project set holds duplicated, unsorted names. -/
def redisP : Redis :=
  { st := { kv := [], zset := [], legacyList := [], projectSet := ["p2", "p1", "p1"] },
    failZrange := false, failMget := false, failLrange := false, failSmembers := false }

theorem strLtData_trans : ∀ (a b c : List Char),
    strLtData a b = true → strLtData b c = true → strLtData a c = true := by
  intro a
  induction a with
  | nil =>
    intro b c hab hbc
    cases b with
    | nil => simp [strLtData] at hab
    | cons y ys =>
      cases c with
      | nil => simp [strLtData] at hbc
      | cons z zs => simp [strLtData]
  | cons x xs ih =>
    intro b c hab hbc
    cases b with
    | nil => simp [strLtData] at hab
    | cons y ys =>
      cases c with
      | nil => simp [strLtData] at hbc
      | cons z zs =>
        simp only [strLtData] at hab hbc ⊢
        by_cases h1 : x < y
        · by_cases h2 : y < z
          · simp [lt_trans h1 h2]
          · rw [if_neg h2] at hbc
            by_cases h3 : z < y
            · simp [h3] at hbc
            · have hyz : y = z := le_antisymm (not_lt.mp h3) (not_lt.mp h2)
              subst hyz
              simp [h1]
        · rw [if_neg h1] at hab
          by_cases h4 : y < x
          · simp [h4] at hab
          · have hxy : x = y := le_antisymm (not_lt.mp h4) (not_lt.mp h1)
            subst hxy
            by_cases h2 : x < z
            · simp [h2]
            · rw [if_neg h2] at hbc
              by_cases h5 : z < x
              · simp [h5] at hbc
              · have hxz : x = z := le_antisymm (not_lt.mp h5) (not_lt.mp h2)
                subst hxz
                simp only [if_neg h2, if_neg (lt_irrefl x), if_neg h1] at hab hbc ⊢
                exact ih ys zs hab hbc

theorem strLtData_connex : ∀ (a b : List Char),
    strLtData a b = false → strLtData b a = false → a = b := by
  intro a
  induction a with
  | nil =>
    intro b hab _
    cases b with
    | nil => rfl
    | cons y ys => simp [strLtData] at hab
  | cons x xs ih =>
    intro b hab hba
    cases b with
    | nil => simp [strLtData] at hba
    | cons y ys =>
      simp only [strLtData] at hab hba
      by_cases h1 : x < y
      · simp [h1] at hab
      · by_cases h2 : y < x
        · simp [h2] at hba
        · have hxy : x = y := le_antisymm (not_lt.mp h2) (not_lt.mp h1)
          subst hxy
          simp only [if_neg h1] at hab hba
          rw [ih ys hab hba]

theorem strLtData_irrefl : ∀ (a : List Char), strLtData a a = true → False := by
  intro a
  induction a with
  | nil => intro h; simp [strLtData] at h
  | cons x xs ih =>
    intro h
    simp only [strLtData, if_neg (lt_irrefl x)] at h
    exact ih h

theorem strLt_trans (a b c : String) (h1 : strLt a b = true) (h2 : strLt b c = true) :
    strLt a c = true :=
  strLtData_trans a.data b.data c.data h1 h2

theorem strLt_connex (a b : String) (h1 : strLt a b = false) (h2 : strLt b a = false) :
    a = b := by
  have hd : a.data = b.data := strLtData_connex a.data b.data h1 h2
  cases a with
  | mk da =>
    cases b with
    | mk db => exact congrArg String.mk hd

theorem strLt_asymm (a b : String) (h : strLt a b = true) : strLt b a = false := by
  cases hx : strLt b a with
  | false => rfl
  | true => exact absurd (strLt_trans a b a h hx) (fun hh => strLtData_irrefl a.data hh)

theorem strLe_total (a b : String) : strLe a b = true ∨ strLe b a = true := by
  cases hx : strLt b a with
  | false => left; simp [strLe, hx]
  | true => right; simp [strLe, strLt_asymm b a hx]

theorem strLe_trans (a b c : String) (h1 : strLe a b = true) (h2 : strLe b c = true) :
    strLe a c = true := by
  have hba : strLt b a = false := by
    cases hx : strLt b a with
    | false => rfl
    | true => rw [strLe, hx] at h1; simp at h1
  have hcb : strLt c b = false := by
    cases hx : strLt c b with
    | false => rfl
    | true => rw [strLe, hx] at h2; simp at h2
  cases hca : strLt c a with
  | false => simp [strLe, hca]
  | true =>
    exfalso
    cases hab : strLt a b with
    | true =>
      have := strLt_trans c a b hca hab
      rw [hcb] at this
      simp at this
    | false =>
      have heq : a = b := strLt_connex a b hab hba
      subst heq
      rw [hca] at hcb
      simp at hcb

instance : IsTrans DeployRecord recOrd :=
  ⟨fun a b c h1 h2 => strLe_trans c.deployedAt b.deployedAt a.deployedAt h2 h1⟩

instance : IsTotal DeployRecord recOrd :=
  ⟨fun a b => (strLe_total b.deployedAt a.deployedAt).symm.imp id id |>.symm⟩

instance : IsTrans String (fun a b => strLe a b = true) :=
  ⟨fun a b c h1 h2 => strLe_trans a b c h1 h2⟩

instance : IsTotal String (fun a b => strLe a b = true) :=
  ⟨fun a b => strLe_total a b⟩

theorem tryReadMerged_ok (ctx : TimeCtx) (r : Redis) (limit : Nat) (pn : Option (List String))
    (hz : r.failZrange = false) (hl : r.failLrange = false)
    (hm : r.failMget = false ∨ zrangeIdsOf r = []) :
    tryReadMerged ctx r limit pn = Except.ok (resultListOf ctx r limit pn) := by
  have hmap : ((zrangeIdsOf r).map deployRecordKey).map (kvLookup r.st.kv)
      = (zrangeIdsOf r).map (fun id => kvLookup r.st.kv (deployRecordKey id)) := by
    rw [List.map_map]
    rfl
  by_cases hlen : ((zrangeIdsOf r).map deployRecordKey).length > 0
  · have hm2 : r.failMget = false := by
      rcases hm with hm | hm
      · exact hm
      · rw [hm] at hlen
        simp at hlen
    simp only [tryReadMerged, zrangeRevOp, lrangeOp, mgetOp, hz, hl, hm2, if_pos hlen,
      Bool.false_eq_true, if_false, hmap, resultListOf, candidatesOf, fromZsetOf,
      fromListOf, filterCoerce]
    rw [apply_ite Except.ok]
  · have hnil : zrangeIdsOf r = [] := by
      have hlm := List.length_map (zrangeIdsOf r) deployRecordKey
      have hz0 : (zrangeIdsOf r).length = 0 := by omega
      exact List.length_eq_zero.mp hz0
    simp only [tryReadMerged, zrangeRevOp, lrangeOp, mgetOp, hz, hl, if_neg hlen,
      Bool.false_eq_true, if_false, resultListOf, candidatesOf, fromZsetOf, fromListOf,
      filterCoerce, hnil, List.map_nil, List.filterMap_nil, List.length_nil, gt_iff_lt,
      Nat.lt_irrefl]
    rw [apply_ite Except.ok]

theorem tryReadMerged_err_zrange (ctx : TimeCtx) (r : Redis) (limit : Nat)
    (pn : Option (List String)) (h : r.failZrange = true) :
    tryReadMerged ctx r limit pn = Except.error () := by
  simp [tryReadMerged, zrangeRevOp, h]

theorem tryReadMerged_err_mget (ctx : TimeCtx) (r : Redis) (limit : Nat)
    (pn : Option (List String)) (hz : r.failZrange = false) (hm : r.failMget = true)
    (hids : zrangeIdsOf r ≠ []) :
    tryReadMerged ctx r limit pn = Except.error () := by
  have hlen : 0 < (zrangeIdsOf r).length := by
    cases hx : zrangeIdsOf r with
    | nil => exact absurd hx hids
    | cons a t => simp [hx]
  simp [tryReadMerged, zrangeRevOp, mgetOp, hz, hm, hlen]

theorem tryReadMerged_err_lrange (ctx : TimeCtx) (r : Redis) (limit : Nat)
    (pn : Option (List String)) (hz : r.failZrange = false) (hl : r.failLrange = true) :
    tryReadMerged ctx r limit pn = Except.error () := by
  by_cases hlen : 0 < (zrangeIdsOf r).length
  · cases hm : r.failMget with
    | false => simp [tryReadMerged, zrangeRevOp, mgetOp, lrangeOp, hz, hm, hl, hlen]
    | true => simp [tryReadMerged, zrangeRevOp, mgetOp, hz, hm, hlen]
  · simp [tryReadMerged, zrangeRevOp, mgetOp, lrangeOp, hz, hl, hlen]

theorem getLatest_of_try_err (ctx : TimeCtx) (r : Redis) (limit : Nat)
    (pn : Option (List String)) (h : tryReadMerged ctx r limit pn = Except.error ()) :
    getLatestDeployRecords ctx (some r) limit pn = Except.ok [] := by
  simp [getLatestDeployRecords, h]

theorem getLatest_of_try_ok (ctx : TimeCtx) (r : Redis) (limit : Nat)
    (pn : Option (List String)) (l : List DeployRecord)
    (h : tryReadMerged ctx r limit pn = Except.ok l) :
    getLatestDeployRecords ctx (some r) limit pn = Except.ok l := by
  simp [getLatestDeployRecords, h]

theorem getLatest_cases (ctx : TimeCtx) (r : Redis) (limit : Nat)
    (pn : Option (List String)) :
    getLatestDeployRecords ctx (some r) limit pn = Except.ok [] ∨
    getLatestDeployRecords ctx (some r) limit pn
      = Except.ok (resultListOf ctx r limit pn) := by
  cases hz : r.failZrange with
  | true => exact Or.inl (getLatest_of_try_err ctx r limit pn
      (tryReadMerged_err_zrange ctx r limit pn hz))
  | false =>
    cases hl : r.failLrange with
    | true => exact Or.inl (getLatest_of_try_err ctx r limit pn
        (tryReadMerged_err_lrange ctx r limit pn hz hl))
    | false =>
      cases hm : r.failMget with
      | false => exact Or.inr (getLatest_of_try_ok ctx r limit pn _
          (tryReadMerged_ok ctx r limit pn hz hl (Or.inl hm)))
      | true =>
        by_cases hids : zrangeIdsOf r = []
        · exact Or.inr (getLatest_of_try_ok ctx r limit pn _
            (tryReadMerged_ok ctx r limit pn hz hl (Or.inr hids)))
        · exact Or.inl (getLatest_of_try_err ctx r limit pn
            (tryReadMerged_err_mget ctx r limit pn hz hm hids))

theorem mem_candidates_of_mem_result (ctx : TimeCtx) (r : Redis) (limit : Nat)
    (pn : Option (List String)) (rec : DeployRecord)
    (h : rec ∈ resultListOf ctx r limit pn) : rec ∈ candidatesOf ctx r pn := by
  simp only [resultListOf] at h
  by_cases hs : 0 < (List.insertionSort recOrd (candidatesOf ctx r pn)).length
  · rw [if_pos hs] at h
    exact (List.mem_insertionSort recOrd).mp (List.mem_of_mem_take h)
  · rw [if_neg hs] at h
    exact absurd h (List.not_mem_nil rec)

theorem keepRetention_of_mem_candidates (ctx : TimeCtx) (r : Redis)
    (pn : Option (List String)) (rec : DeployRecord)
    (h : rec ∈ candidatesOf ctx r pn) : keepRetention ctx rec = true := by
  simp only [candidatesOf] at h
  cases pn with
  | none => exact (List.mem_filter.mp h).2
  | some ps =>
    by_cases hp : 0 < ps.length
    · simp only [hp, if_pos] at h
      exact (List.mem_filter.mp (List.mem_filter.mp h).1).2
    · simp only [gt_iff_lt, hp, if_neg] at h
      exact (List.mem_filter.mp h).2

/-- C2: for every store state, limit and project filter, a record whose
`deployedAt` parses to an instant more than 30 days before the current time is
never contained in the list returned by `getLatestDeployRecords` (equivalently:
every returned record whose timestamp parses lies within the window). -/
theorem retention_window_enforced (ctx : TimeCtx) (r : Redis) (limit : Nat)
    (pn : Option (List String)) (l : List DeployRecord) (rec : DeployRecord) (t : Int)
    (hok : getLatestDeployRecords ctx (some r) limit pn = Except.ok l)
    (hmem : rec ∈ l) (hp : ctx.parseDate rec.deployedAt = some t) :
    ctx.nowMs - THIRTY_DAYS_MS ≤ t := by
  rcases getLatest_cases ctx r limit pn with hc | hc
  · rw [hok] at hc
    injection hc with he
    subst he
    exact absurd hmem (List.not_mem_nil rec)
  · rw [hok] at hc
    injection hc with he
    subst he
    have hcand := mem_candidates_of_mem_result ctx r limit pn rec hmem
    have hkeep := keepRetention_of_mem_candidates ctx r pn rec hcand
    unfold keepRetention at hkeep
    rw [hp] at hkeep
    exact of_decide_eq_true hkeep

/-- C9: for every store state, project filter and limit of at least 1, the
list returned by `getLatestDeployRecords` has length at most `limit`. -/
theorem result_length_le_limit (ctx : TimeCtx) (r : Redis) (limit : Nat)
    (pn : Option (List String)) (l : List DeployRecord)
    (hlim : 1 ≤ limit)
    (hok : getLatestDeployRecords ctx (some r) limit pn = Except.ok l) :
    l.length ≤ limit := by
  rcases getLatest_cases ctx r limit pn with hc | hc
  · rw [hok] at hc
    injection hc with he
    subst he
    simp
  · rw [hok] at hc
    injection hc with he
    subst he
    simp only [resultListOf]
    by_cases hs : 0 < (List.insertionSort recOrd (candidatesOf ctx r pn)).length
    · rw [if_pos hs]
      rw [List.length_take]
      exact min_le_left limit _
    · rw [if_neg hs]
      simp [hlim]

/-- C5: for every configured-Redis state, `getLatestDeployRecords` never
propagates a storage error: it always returns `ok`, and when the `ZRANGE`,
`LRANGE` or a reached `MGET` operation fails it returns the empty list; the
function throws only when no backend is configured (`redis` is `none`). -/
theorem read_failure_yields_empty (ctx : TimeCtx) (limit : Nat)
    (pn : Option (List String)) (r : Redis) :
    (∃ l, getLatestDeployRecords ctx (some r) limit pn = Except.ok l) ∧
    (getLatestDeployRecords ctx none limit pn = Except.error redisNotConfiguredMsg) ∧
    (r.failZrange = true → getLatestDeployRecords ctx (some r) limit pn = Except.ok []) ∧
    (r.failLrange = true → getLatestDeployRecords ctx (some r) limit pn = Except.ok []) ∧
    (r.failMget = true → zrangeIdsOf r ≠ [] →
      getLatestDeployRecords ctx (some r) limit pn = Except.ok []) := by
  refine ⟨?_, ?_, ?_, ?_, ?_⟩
  · rcases getLatest_cases ctx r limit pn with hc | hc
    · exact ⟨[], hc⟩
    · exact ⟨resultListOf ctx r limit pn, hc⟩
  · rfl
  · intro hz
    exact getLatest_of_try_err ctx r limit pn (tryReadMerged_err_zrange ctx r limit pn hz)
  · intro hl
    cases hz : r.failZrange with
    | true =>
      exact getLatest_of_try_err ctx r limit pn (tryReadMerged_err_zrange ctx r limit pn hz)
    | false =>
      exact getLatest_of_try_err ctx r limit pn (tryReadMerged_err_lrange ctx r limit pn hz hl)
  · intro hm hids
    cases hz : r.failZrange with
    | true =>
      exact getLatest_of_try_err ctx r limit pn (tryReadMerged_err_zrange ctx r limit pn hz)
    | false =>
      exact getLatest_of_try_err ctx r limit pn (tryReadMerged_err_mget ctx r limit pn hz hm hids)

theorem jsSetDedup_nodup (l : List String) : (jsSetDedup l).Nodup := by
  suffices h : ∀ (acc : List String), acc.Nodup →
      (l.foldl (fun acc x => if x ∈ acc then acc else acc ++ [x]) acc).Nodup by
    exact h [] List.nodup_nil
  induction l with
  | nil => intro acc ha; exact ha
  | cons x xs ih =>
    intro acc ha
    simp only [List.foldl_cons]
    by_cases hx : x ∈ acc
    · rw [if_pos hx]
      exact ih acc ha
    · rw [if_neg hx]
      apply ih
      simp [List.nodup_append, ha, hx]

theorem sortStrings_sorted_nodup (xs : List String) :
    List.Sorted (fun a b => strLe a b = true) (sortStrings (jsSetDedup xs)) ∧
    (sortStrings (jsSetDedup xs)).Nodup := by
  constructor
  · exact List.sorted_insertionSort (fun a b => strLe a b = true) (jsSetDedup xs)
  · exact ((List.perm_insertionSort (fun a b => strLe a b = true) (jsSetDedup xs)).nodup_iff).mpr
      (jsSetDedup_nodup xs)

/-- C10: for every store state (project set populated, project set empty with
legacy-list fallback, or a failed read), the list returned by `getAllProjects`
is duplicate-free and sorted in ascending lexicographic order. -/
theorem projects_sorted_and_nodup (redis : Option Redis) (l : List String)
    (hok : getAllProjects redis = Except.ok l) :
    List.Sorted (fun a b => strLe a b = true) l ∧ l.Nodup := by
  cases redis with
  | none => simp [getAllProjects] at hok
  | some r =>
    cases hs : smembersOp r with
    | error e =>
      simp only [getAllProjects, hs] at hok
      injection hok with he
      subst he
      simp
    | ok members =>
      simp only [getAllProjects, hs] at hok
      by_cases hm : members.length > 0
      · rw [if_pos hm] at hok
        injection hok with he
        subst he
        exact sortStrings_sorted_nodup members
      · rw [if_neg hm] at hok
        cases hl : lrangeOp r with
        | error e =>
          simp only [hl] at hok
          injection hok with he
          subst he
          simp
        | ok items =>
          simp only [hl] at hok
          by_cases hi : (jsSetDedup ((filterCoerce items).map (fun r => r.projectName))).length > 0
          · rw [if_pos hi] at hok
            injection hok with he
            subst he
            -- sortStrings applied to an already deduplicated list
            constructor
            · exact List.sorted_insertionSort (fun a b => strLe a b = true) _
            · exact ((List.perm_insertionSort (fun a b => strLe a b = true) _).nodup_iff).mpr
                (jsSetDedup_nodup _)
          · rw [if_neg hi] at hok
            injection hok with he
            subst he
            simp

theorem pairConsistent_nil : pairConsistent [] :=
  fun p hp => absurd hp (List.not_mem_nil p)

theorem mapSet_pairConsistent (m : List (String × DeployRecord)) (x : DeployRecord)
    (h : pairConsistent m) : pairConsistent (mapSet m x) := by
  unfold mapSet
  by_cases hb : m.any (fun p => decide (p.1 = x.id)) = true
  · rw [if_pos hb]
    intro p hp
    rcases List.mem_map.mp hp with ⟨q, hq, hfq⟩
    by_cases hqx : q.1 = x.id
    · rw [if_pos hqx] at hfq
      rw [← hfq]
    · rw [if_neg hqx] at hfq
      rw [← hfq]
      exact h q hq
  · rw [if_neg hb]
    intro p hp
    rcases List.mem_append.mp hp with hp | hp
    · exact h p hp
    · rcases List.mem_singleton.mp hp with rfl
      rfl

theorem mapSet_keys_cases (m : List (String × DeployRecord)) (x : DeployRecord) :
    (mapSet m x).map Prod.fst = m.map Prod.fst ∨
    ((mapSet m x).map Prod.fst = m.map Prod.fst ++ [x.id] ∧ ∀ p ∈ m, p.1 ≠ x.id) := by
  unfold mapSet
  by_cases hb : m.any (fun p => decide (p.1 = x.id)) = true
  · left
    rw [if_pos hb, List.map_map]
    apply List.map_congr_left
    intro q _
    by_cases hqx : q.1 = x.id
    · simp only [Function.comp, if_pos hqx]
      exact hqx.symm
    · simp only [Function.comp, if_neg hqx]
  · right
    constructor
    · rw [if_neg hb, List.map_append]
      rfl
    · intro p hp hpe
      apply hb
      exact List.any_eq_true.mpr ⟨p, hp, decide_eq_true hpe⟩

theorem mapSet_keys_nodup (m : List (String × DeployRecord)) (x : DeployRecord)
    (h : (m.map Prod.fst).Nodup) : ((mapSet m x).map Prod.fst).Nodup := by
  rcases mapSet_keys_cases m x with hk | ⟨hk, hfresh⟩
  · rw [hk]
    exact h
  · rw [hk]
    simp only [List.nodup_append, List.nodup_cons]
    refine ⟨h, by simp, ?_⟩
    intro a ha hb
    rcases List.mem_map.mp ha with ⟨p, hp, hpe⟩
    rcases List.mem_singleton.mp hb with rfl
    exact hfresh p hp hpe

theorem foldl_mapSet_pairConsistent (rs : List DeployRecord)
    (m : List (String × DeployRecord)) (h : pairConsistent m) :
    pairConsistent (rs.foldl mapSet m) := by
  induction rs generalizing m with
  | nil => exact h
  | cons x xs ih => exact ih (mapSet m x) (mapSet_pairConsistent m x h)

theorem foldl_mapSet_keys_nodup (rs : List DeployRecord)
    (m : List (String × DeployRecord)) (h : (m.map Prod.fst).Nodup) :
    ((rs.foldl mapSet m).map Prod.fst).Nodup := by
  induction rs generalizing m with
  | nil => exact h
  | cons x xs ih => exact ih (mapSet m x) (mapSet_keys_nodup m x h)

theorem buildById_pairConsistent (fl fz : List DeployRecord) :
    pairConsistent (buildById fl fz) :=
  foldl_mapSet_pairConsistent (fl ++ fz) [] pairConsistent_nil

theorem buildById_keys_nodup (fl fz : List DeployRecord) :
    ((buildById fl fz).map Prod.fst).Nodup :=
  foldl_mapSet_keys_nodup (fl ++ fz) [] (by simp)

theorem pair_mem_of_mem_values (fl fz : List DeployRecord) (rec : DeployRecord)
    (h : rec ∈ (buildById fl fz).map (fun p => p.2)) :
    (rec.id, rec) ∈ buildById fl fz := by
  rcases List.mem_map.mp h with ⟨p, hp, he⟩
  have hc := buildById_pairConsistent fl fz p hp
  cases p with
  | mk k v =>
    simp only at he
    subst he
    simp only at hc
    rw [hc] at hp
    exact hp

theorem mem_mapSet (m : List (String × DeployRecord)) (x : DeployRecord) (k : String)
    (v : DeployRecord) (h : (k, v) ∈ mapSet m x) :
    (k = x.id ∧ v = x) ∨ ((k, v) ∈ m ∧ k ≠ x.id) := by
  unfold mapSet at h
  by_cases hb : m.any (fun p => decide (p.1 = x.id)) = true
  · rw [if_pos hb] at h
    rcases List.mem_map.mp h with ⟨q, hq, hfq⟩
    by_cases hqx : q.1 = x.id
    · rw [if_pos hqx] at hfq
      obtain ⟨h1, h2⟩ := Prod.mk.injEq .. |>.mp hfq
      exact Or.inl ⟨h1.symm, h2.symm⟩
    · rw [if_neg hqx] at hfq
      right
      rw [hfq] at hq
      refine ⟨hq, ?_⟩
      intro hke
      apply hqx
      rw [hfq]
      exact hke
  · rw [if_neg hb] at h
    rcases List.mem_append.mp h with hm | hm
    · right
      refine ⟨hm, ?_⟩
      intro hke
      apply hb
      exact List.any_eq_true.mpr ⟨(k, v), hm, decide_eq_true hke⟩
    · left
      have he := List.mem_singleton.mp hm
      obtain ⟨h1, h2⟩ := Prod.mk.injEq .. |>.mp he
      exact ⟨h1, h2⟩

theorem mem_foldl_mapSet (rs : List DeployRecord) (m : List (String × DeployRecord))
    (k : String) (v : DeployRecord) (h : (k, v) ∈ rs.foldl mapSet m) :
    (v ∈ rs ∧ v.id = k) ∨ ((k, v) ∈ m ∧ ∀ x ∈ rs, x.id ≠ k) := by
  induction rs generalizing m with
  | nil =>
    right
    exact ⟨h, fun x hx => absurd hx (List.not_mem_nil x)⟩
  | cons x xs ih =>
    rcases ih (mapSet m x) h with ⟨hv, hid⟩ | ⟨hm, hfresh⟩
    · exact Or.inl ⟨List.mem_cons_of_mem x hv, hid⟩
    · rcases mem_mapSet m x k v hm with ⟨hk, hv⟩ | ⟨hm2, hk⟩
      · left
        subst hv
        exact ⟨List.mem_cons_self v xs, hk.symm⟩
      · right
        refine ⟨hm2, ?_⟩
        intro y hy
        rcases List.mem_cons.mp hy with rfl | hy2
        · intro he
          exact hk he.symm
        · exact hfresh y hy2

theorem candidates_sublist_values (ctx : TimeCtx) (r : Redis) (pn : Option (List String)) :
    (candidatesOf ctx r pn).Sublist
      ((buildById (fromListOf r) (fromZsetOf r)).map (fun p => p.2)) := by
  cases pn with
  | none =>
    simp only [candidatesOf]
    exact List.filter_sublist _
  | some ps =>
    simp only [candidatesOf]
    by_cases hp : ps.length > 0
    · rw [if_pos hp]
      exact (List.filter_sublist _).trans (List.filter_sublist _)
    · rw [if_neg hp]
      exact List.filter_sublist _

theorem values_ids_eq_keys (fl fz : List DeployRecord) :
    ((buildById fl fz).map (fun p => p.2)).map (fun v => v.id)
      = (buildById fl fz).map Prod.fst := by
  rw [List.map_map]
  apply List.map_congr_left
  intro p hp
  exact (buildById_pairConsistent fl fz p hp).symm

theorem result_ids_nodup (ctx : TimeCtx) (r : Redis) (limit : Nat)
    (pn : Option (List String)) :
    ((resultListOf ctx r limit pn).map (fun v => v.id)).Nodup := by
  have hvals : (((buildById (fromListOf r) (fromZsetOf r)).map (fun p => p.2)).map
      (fun v => v.id)).Nodup := by
    rw [values_ids_eq_keys]
    exact buildById_keys_nodup (fromListOf r) (fromZsetOf r)
  have hcand : ((candidatesOf ctx r pn).map (fun v => v.id)).Nodup :=
    ((candidates_sublist_values ctx r pn).map (fun v : DeployRecord => v.id)).nodup hvals
  have hsort : ((List.insertionSort recOrd (candidatesOf ctx r pn)).map
      (fun v => v.id)).Nodup :=
    (((List.perm_insertionSort recOrd (candidatesOf ctx r pn)).map
      (fun v : DeployRecord => v.id)).nodup_iff).mpr hcand
  simp only [resultListOf]
  by_cases hs : 0 < (List.insertionSort recOrd (candidatesOf ctx r pn)).length
  · rw [if_pos hs]
    exact ((List.take_sublist limit _).map (fun v : DeployRecord => v.id)).nodup hsort
  · rw [if_neg hs]
    simp

theorem mem_values_of_mem_candidates (ctx : TimeCtx) (r : Redis)
    (pn : Option (List String)) (rec : DeployRecord)
    (h : rec ∈ candidatesOf ctx r pn) :
    rec ∈ (buildById (fromListOf r) (fromZsetOf r)).map (fun p => p.2) :=
  (candidates_sublist_values ctx r pn).mem h

theorem zset_version_wins (r : Redis) (rec : DeployRecord)
    (hmem : rec ∈ (buildById (fromListOf r) (fromZsetOf r)).map (fun p => p.2))
    (hz : ∃ x ∈ fromZsetOf r, x.id = rec.id) : rec ∈ fromZsetOf r := by
  have hpair := pair_mem_of_mem_values (fromListOf r) (fromZsetOf r) rec hmem
  unfold buildById at hpair
  rw [List.foldl_append] at hpair
  rcases mem_foldl_mapSet (fromZsetOf r) _ rec.id rec hpair with ⟨hv, _⟩ | ⟨_, hfresh⟩
  · exact hv
  · rcases hz with ⟨x, hx, hxe⟩
    exact absurd hxe (hfresh x hx)

/-- C6 amended: the returned list never contains two records with the same
identifier, and whenever the time-ordered index contributes a record with a
given identifier, any returned record with that identifier is the version
from the time-ordered index (retention, project filtering or the limit may
drop the identifier from the result altogether, so the phrase exactly-one weakens to
"at most one"). -/
theorem dedup_time_index_wins (ctx : TimeCtx) (r : Redis) (limit : Nat)
    (pn : Option (List String)) (l : List DeployRecord)
    (hok : getLatestDeployRecords ctx (some r) limit pn = Except.ok l) :
    (l.map (fun v => v.id)).Nodup ∧
    (∀ rec ∈ l, (∃ x ∈ fromZsetOf r, x.id = rec.id) → rec ∈ fromZsetOf r) := by
  rcases getLatest_cases ctx r limit pn with hc | hc
  · rw [hok] at hc
    injection hc with he
    subst he
    exact ⟨by simp, fun rec hrec _ => absurd hrec (List.not_mem_nil rec)⟩
  · rw [hok] at hc
    injection hc with he
    subst he
    refine ⟨result_ids_nodup ctx r limit pn, ?_⟩
    intro rec hrec hz
    have hcand := mem_candidates_of_mem_result ctx r limit pn rec hrec
    have hval := mem_values_of_mem_candidates ctx r pn rec hcand
    exact zset_version_wins r rec hval hz

theorem find?_map_update (m : List (String × RawValue)) (k : String) (v : RawValue) :
    (m.map (fun p => if p.1 = k then (k, v) else p)).find? (fun p => decide (p.1 = k))
      = if m.any (fun p => decide (p.1 = k)) then some (k, v) else none := by
  induction m with
  | nil => simp
  | cons q qs ih =>
    by_cases hq : q.1 = k
    · simp [List.find?, hq]
    · cases ha : qs.any (fun p => decide (p.1 = k)) with
      | true => simp [List.find?, hq, ih, ha]
      | false => simp [List.find?, hq, ih, ha]

theorem kvLookup_kvSet (m : List (String × RawValue)) (k : String) (v : RawValue) :
    kvLookup (kvSet m k v) k = v := by
  unfold kvSet
  by_cases hb : m.any (fun p => decide (p.1 = k)) = true
  · rw [if_pos hb]
    unfold kvLookup
    rw [find?_map_update m k v, if_pos hb]
  · rw [if_neg hb]
    unfold kvLookup
    have hnone : m.find? (fun p => decide (p.1 = k)) = none := by
      rw [List.find?_eq_none]
      intro p hp hpe
      exact hb (List.any_eq_true.mpr ⟨p, hp, hpe⟩)
    rw [List.find?_append, hnone]
    simp [List.find?]

theorem kvSet_values (m : List (String × RawValue)) (k : String) (w v : RawValue)
    (h : v ∈ (kvSet m k w).map Prod.snd) : v ∈ m.map Prod.snd ∨ v = w := by
  unfold kvSet at h
  by_cases hb : m.any (fun p => decide (p.1 = k)) = true
  · rw [if_pos hb, List.map_map] at h
    rcases List.mem_map.mp h with ⟨q, hq, hfq⟩
    by_cases hqk : q.1 = k
    · right
      rw [← hfq]
      simp [Function.comp, if_pos hqk]
    · left
      rw [← hfq]
      simp only [Function.comp, if_neg hqk]
      exact List.mem_map.mpr ⟨q, hq, rfl⟩
  · rw [if_neg hb, List.map_append] at h
    rcases List.mem_append.mp h with hm | hm
    · exact Or.inl hm
    · right
      simpa using hm

theorem kvLookup_cases (m : List (String × RawValue)) (k : String) :
    kvLookup m k = RawValue.vnull ∨ kvLookup m k ∈ m.map Prod.snd := by
  unfold kvLookup
  cases hf : m.find? (fun p => decide (p.1 = k)) with
  | none => exact Or.inl rfl
  | some p => exact Or.inr (List.mem_map.mpr ⟨p, List.mem_of_find?_eq_some hf, rfl⟩)

theorem zadd_self_mem (z : List (String × Int)) (member : String) (score : Int) :
    (member, score) ∈ zaddPairs z member score := by
  unfold zaddPairs
  by_cases hb : z.any (fun p => decide (p.1 = member)) = true
  · rw [if_pos hb]
    rcases List.any_eq_true.mp hb with ⟨p, hp, hpe⟩
    exact List.mem_map.mpr ⟨p, hp, by rw [if_pos (of_decide_eq_true hpe)]⟩
  · rw [if_neg hb]
    exact List.mem_append.mpr (Or.inr (List.mem_singleton.mpr rfl))

theorem zrem_keep (z : List (String × Int)) (lo hi : Int) (p : String × Int)
    (hp : p ∈ z) (h : ¬(lo ≤ p.2 ∧ p.2 ≤ hi)) : p ∈ zremrangebyscore z lo hi := by
  unfold zremrangebyscore
  apply List.mem_filter.mpr
  refine ⟨hp, ?_⟩
  simp
  omega

theorem mem_zrangeIds (r : Redis) (k : String) (s : Int)
    (hmem : (k, s) ∈ r.st.zset) (hlen : r.st.zset.length ≤ MAX_ITEMS) :
    k ∈ zrangeIdsOf r := by
  unfold zrangeIdsOf
  have hperm := List.perm_insertionSort zsetRevOrd r.st.zset
  have hlen2 : (List.insertionSort zsetRevOrd r.st.zset).length ≤ MAX_ITEMS := by
    rw [hperm.length_eq]
    exact hlen
  rw [List.take_of_length_le hlen2]
  exact List.mem_map.mpr ⟨(k, s), hperm.mem_iff.mpr hmem, rfl⟩

theorem self_mem_mapSet (m : List (String × DeployRecord)) (x : DeployRecord) :
    (x.id, x) ∈ mapSet m x := by
  unfold mapSet
  by_cases hb : m.any (fun p => decide (p.1 = x.id)) = true
  · rw [if_pos hb]
    rcases List.any_eq_true.mp hb with ⟨p, hp, hpe⟩
    exact List.mem_map.mpr ⟨p, hp, by rw [if_pos (of_decide_eq_true hpe)]⟩
  · rw [if_neg hb]
    exact List.mem_append.mpr (Or.inr (List.mem_singleton.mpr rfl))

theorem mapSet_preserves_mem (m : List (String × DeployRecord)) (x : DeployRecord)
    (k : String) (v : DeployRecord) (h : (k, v) ∈ m) (hk : k ≠ x.id) :
    (k, v) ∈ mapSet m x := by
  unfold mapSet
  by_cases hb : m.any (fun p => decide (p.1 = x.id)) = true
  · rw [if_pos hb]
    refine List.mem_map.mpr ⟨(k, v), h, ?_⟩
    rw [if_neg hk]
  · rw [if_neg hb]
    exact List.mem_append.mpr (Or.inl h)

theorem foldl_mapSet_mem_of (rs : List DeployRecord) (m : List (String × DeployRecord))
    (rec : DeployRecord) (hall : ∀ x ∈ rs, x.id = rec.id → x = rec)
    (hstart : (rec.id, rec) ∈ m ∨ rec ∈ rs) :
    (rec.id, rec) ∈ rs.foldl mapSet m := by
  induction rs generalizing m with
  | nil =>
    rcases hstart with hm | hm
    · exact hm
    · exact absurd hm (List.not_mem_nil rec)
  | cons x xs ih =>
    apply ih (mapSet m x)
    · intro y hy hye
      exact hall y (List.mem_cons_of_mem x hy) hye
    · rcases hstart with hm | hm
      · by_cases hx : x.id = rec.id
        · have hxr : x = rec := hall x (List.mem_cons_self x xs) hx
          subst hxr
          exact Or.inl (hx ▸ self_mem_mapSet m x)
        · exact Or.inl (mapSet_preserves_mem m x rec.id rec hm (fun he => hx he.symm))
      · rcases List.mem_cons.mp hm with rfl | hm2
        · exact Or.inl (self_mem_mapSet m rec)
        · exact Or.inr hm2

theorem freshId_spec (nid : String) (v : RawValue) (rc : DeployRecord)
    (h : freshId nid v = true) (hc : coerceRecord v = some rc) : rc.id ≠ nid := by
  simp only [freshId, hc] at h
  by_cases he : rc.id = nid
  · rw [if_pos he] at h
    exact absurd h (by simp)
  · exact he

/-- C1 amended: a record written via `addDeployRecord` and then retrieved via
`getLatestDeployRecords` with no project filter appears in the returned list,
provided (as the counterexample forces) `limit` is at least the number of
candidate records of the store after the write; the statement also makes the
implicit normal-operation assumptions of the claim explicit: no storage operation
fails, the generated id is nonempty and collides with no record already
stored, the timestamp of the record parses and lies within the 30-day window, and
the time index holds at most `MAX_ITEMS` entries. -/
theorem create_then_visible (ctx : TimeCtx) (r : Redis) (newId : String)
    (payload : CreateDeployPayload) (limit : Nat) (t : Int)
    (hz : r.failZrange = false) (hm : r.failMget = false) (hl : r.failLrange = false)
    (hid : newId ≠ "")
    (hne : (addedRecord ctx newId payload r.st).deployedAt ≠ "")
    (hparse : ctx.parseDate (addedRecord ctx newId payload r.st).deployedAt = some t)
    (hwin : ctx.nowMs - THIRTY_DAYS_MS ≤ t)
    (hzlen : (redisAfterAdd ctx newId payload r).st.zset.length ≤ MAX_ITEMS)
    (hfk : r.st.kv.all (fun p => freshId newId p.2) = true)
    (hlim : (candidatesOf ctx (redisAfterAdd ctx newId payload r) none).length ≤ limit) :
    ∃ l, getLatestDeployRecords ctx (some (redisAfterAdd ctx newId payload r)) limit none
        = Except.ok l ∧ addedRecord ctx newId payload r.st ∈ l := by
  set rec := addedRecord ctx newId payload r.st with hrecdef
  set rA := redisAfterAdd ctx newId payload r with hrAdef
  have hzA : rA.failZrange = false := hz
  have hmA : rA.failMget = false := hm
  have hlA : rA.failLrange = false := hl
  have hcid : rec.id = newId := rfl
  have hco : coerceRecord (RawValue.vparsed rec) = some rec := by
    simp only [coerceRecord]
    rw [if_neg (by rw [hcid]; exact hid), if_neg hne]
  have hsc : (ctx.parseDate rec.deployedAt).getD 0 = t := by
    rw [hparse]
    rfl
  have hzseteq : rA.st.zset
      = zremrangebyscore
          (zaddPairs r.st.zset newId ((ctx.parseDate rec.deployedAt).getD 0)) 0
          (((ctx.parseDate rec.deployedAt).getD 0) - THIRTY_DAYS_MS - 1) := rfl
  have hzmem : (newId, t) ∈ rA.st.zset := by
    rw [hzseteq, hsc]
    apply zrem_keep
    · exact zadd_self_mem r.st.zset newId t
    · intro hcon
      have h2 := hcon.2
      simp only [THIRTY_DAYS_MS] at h2
      omega
  have hidmem : newId ∈ zrangeIdsOf rA := mem_zrangeIds rA newId t hzmem hzlen
  have hkveq : rA.st.kv
      = kvSet r.st.kv (deployRecordKey newId) (RawValue.vparsed rec) := rfl
  have hkv : kvLookup rA.st.kv (deployRecordKey newId) = RawValue.vparsed rec := by
    rw [hkveq]
    exact kvLookup_kvSet r.st.kv (deployRecordKey newId) (RawValue.vparsed rec)
  have hfz : rec ∈ fromZsetOf rA := by
    unfold fromZsetOf filterCoerce
    apply List.mem_filterMap.mpr
    exact ⟨RawValue.vparsed rec, List.mem_map.mpr ⟨newId, hidmem, hkv⟩, hco⟩
  have hallz : ∀ x ∈ fromZsetOf rA, x.id = rec.id → x = rec := by
    intro x hx hxe
    unfold fromZsetOf filterCoerce at hx
    rcases List.mem_filterMap.mp hx with ⟨v, hv, hcv⟩
    rcases List.mem_map.mp hv with ⟨i, _, hiv⟩
    rcases kvLookup_cases rA.st.kv (deployRecordKey i) with hnull | hmem2
    · rw [← hiv, hnull] at hcv
      simp [coerceRecord] at hcv
    · rw [← hiv] at hcv
      rw [hkveq] at hcv
      rw [hkveq] at hmem2
      rcases kvSet_values r.st.kv (deployRecordKey newId) (RawValue.vparsed rec) _ hmem2
        with hold | hnew
      · rcases List.mem_map.mp hold with ⟨p, hp, hpv⟩
        have hfi : freshId newId p.2 = true := List.all_eq_true.mp hfk p hp
        rw [hpv] at hfi
        have hxid := freshId_spec newId _ x hfi hcv
        exact absurd (hxe.trans hcid) hxid
      · rw [hnew, hco] at hcv
        exact (Option.some.inj hcv).symm
  have hpair : (rec.id, rec) ∈ buildById (fromListOf rA) (fromZsetOf rA) := by
    unfold buildById
    rw [List.foldl_append]
    exact foldl_mapSet_mem_of (fromZsetOf rA) _ rec hallz (Or.inr hfz)
  have hval : rec ∈ (buildById (fromListOf rA) (fromZsetOf rA)).map (fun p => p.2) :=
    List.mem_map.mpr ⟨(rec.id, rec), hpair, rfl⟩
  have hkeep : keepRetention ctx rec = true := by
    unfold keepRetention
    rw [hparse]
    exact decide_eq_true hwin
  have hcand : rec ∈ candidatesOf ctx rA none := by
    simp only [candidatesOf]
    exact List.mem_filter.mpr ⟨hval, hkeep⟩
  have hsortmem : rec ∈ List.insertionSort recOrd (candidatesOf ctx rA none) :=
    (List.mem_insertionSort recOrd).mpr hcand
  have hslen : (List.insertionSort recOrd (candidatesOf ctx rA none)).length ≤ limit := by
    rw [(List.perm_insertionSort recOrd (candidatesOf ctx rA none)).length_eq]
    exact hlim
  have hpos : 0 < (List.insertionSort recOrd (candidatesOf ctx rA none)).length :=
    List.length_pos.mpr (List.ne_nil_of_mem hsortmem)
  refine ⟨resultListOf ctx rA limit none, ?_, ?_⟩
  · exact getLatest_of_try_ok ctx rA limit none _
      (tryReadMerged_ok ctx rA limit none hzA hlA (Or.inl hmA))
  · simp only [resultListOf]
    rw [if_pos hpos, List.take_of_length_le hslen]
    exact hsortmem

/-- C4: the stored `deployedAt` field is the current instant when the
payload timestamp is absent, blank, or unparsable, and otherwise the parsed
instant re-rendered to ISO form (the request succeeds in every case, the
record being returned). -/
theorem deployedAt_resolution (ctx : TimeCtx) (newId : String)
    (payload : CreateDeployPayload) (st : RedisState) :
    (payload.deployedAt = none →
      (addedRecord ctx newId payload st).deployedAt = ctx.toISO ctx.nowMs) ∧
    (∀ s, payload.deployedAt = some s → jsTrim s = "" →
      (addedRecord ctx newId payload st).deployedAt = ctx.toISO ctx.nowMs) ∧
    (∀ s, payload.deployedAt = some s → jsTrim s ≠ "" → ctx.parseDate (jsTrim s) = none →
      (addedRecord ctx newId payload st).deployedAt = ctx.toISO ctx.nowMs) ∧
    (∀ s u, payload.deployedAt = some s → jsTrim s ≠ "" → ctx.parseDate (jsTrim s) = some u →
      (addedRecord ctx newId payload st).deployedAt = ctx.toISO u) := by
  have hbase : (addedRecord ctx newId payload st).deployedAt
      = resolveDeployedAt ctx payload.deployedAt := rfl
  have h0 : jsTrim ("") = "" := rfl
  refine ⟨?_, ?_, ?_, ?_⟩
  · intro h
    rw [hbase]
    simp [resolveDeployedAt, h, h0]
  · intro s h htrim
    rw [hbase]
    simp [resolveDeployedAt, h, htrim]
  · intro s h htrim hp
    rw [hbase]
    simp [resolveDeployedAt, h, htrim, hp]
  · intro s u h htrim hp
    rw [hbase]
    simp [resolveDeployedAt, h, htrim, hp]

/-- C3: a `POST /deploy` body among whose required fields (title, projectName,
operator, environment, branch, commit, status, in the code order) at least
one is missing is rejected with a 400 error naming the first such field, and
the store state is returned unchanged.  The handler tests JavaScript
truthiness, so an absent field is falsy (as is a present empty string), and
the named field is the first falsy one. -/
theorem missing_field_rejected_route (ctx : TimeCtx) (newId : String)
    (b : DeployRouteBody) (redis : Option Redis) :
    ((b.title = none ∨ b.projectName = none ∨ b.operator = none ∨
      b.environment = none ∨ b.branch = none ∨ b.commit = none ∨
      b.status = none) → ∃ k, firstFalsyKey b = some k) ∧
    (∀ k, firstFalsyKey b = some k →
      POSTdeploy ctx newId b redis = (Except.error (400, missingFieldMsg k), redis)) := by
  constructor
  · intro habs
    cases hf : firstFalsyKey b with
    | some k => exact ⟨k, rfl⟩
    | none =>
      exfalso
      have hchain := hf
      simp only [firstFalsyKey] at hchain
      by_cases h1 : falsyField b.title = true
      · rw [if_pos h1] at hchain
        exact Option.noConfusion hchain
      · rw [if_neg h1] at hchain
        by_cases h2 : falsyField b.projectName = true
        · rw [if_pos h2] at hchain
          exact Option.noConfusion hchain
        · rw [if_neg h2] at hchain
          by_cases h3 : falsyField b.operator = true
          · rw [if_pos h3] at hchain
            exact Option.noConfusion hchain
          · rw [if_neg h3] at hchain
            by_cases h4 : falsyField b.environment = true
            · rw [if_pos h4] at hchain
              exact Option.noConfusion hchain
            · rw [if_neg h4] at hchain
              by_cases h5 : falsyField b.branch = true
              · rw [if_pos h5] at hchain
                exact Option.noConfusion hchain
              · rw [if_neg h5] at hchain
                by_cases h6 : falsyField b.commit = true
                · rw [if_pos h6] at hchain
                  exact Option.noConfusion hchain
                · rw [if_neg h6] at hchain
                  by_cases h7 : falsyField b.status = true
                  · rw [if_pos h7] at hchain
                    exact Option.noConfusion hchain
                  · rcases habs with h | h | h | h | h | h | h
                    · exact h1 (by rw [h]; rfl)
                    · exact h2 (by rw [h]; rfl)
                    · exact h3 (by rw [h]; rfl)
                    · exact h4 (by rw [h]; rfl)
                    · exact h5 (by rw [h]; rfl)
                    · exact h6 (by rw [h]; rfl)
                    · exact h7 (by rw [h]; rfl)
  · intro k h
    simp only [POSTdeploy, h]

/-- C7 counterexample: the GET handler computes the limit as
`Math.max(1, Math.min(50, Number(limit) || 20))`, and the numeric value 0 is
falsy before the clamp, so `limit=0` yields the default 20 rather than the
claimed clamped value 1. -/
theorem limit_zero_defaults_counterexample :
    effectiveLimitJs (some 0) = 20 ∧ max 1 (min 50 (0 : Int)) = 1 ∧
    effectiveLimitJs (some 0) ≠ max 1 (min 50 (0 : Int)) :=
  ⟨rfl, rfl, by decide⟩

/-- C7 amended: the effective limit of `GET /deploy` is 20 when the `limit`
parameter is absent, unparsable, or the numeric value 0 (all falsy before the
clamp), and otherwise the numeric value clamped into the range `[1, 50]`; it
always lies in `[1, 50]` and is the value passed on to the record query. -/
theorem limit_defaulted_then_clamped (ctx : TimeCtx) (redis : Option Redis)
    (limitParam : Option Int) (multi : List String) (csv : Option String) :
    (limitParam = none → effectiveLimitJs limitParam = 20) ∧
    (limitParam = some 0 → effectiveLimitJs limitParam = 20) ∧
    (∀ n, limitParam = some n →
      1 ≤ effectiveLimitJs limitParam ∧ effectiveLimitJs limitParam ≤ 50) ∧
    (∀ n, limitParam = some n → n < 0 → effectiveLimitJs limitParam = 1) ∧
    (∀ n, limitParam = some n → 50 ≤ n → effectiveLimitJs limitParam = 50) ∧
    (∀ n, limitParam = some n → 1 ≤ n → n ≤ 50 →
      effectiveLimitJs limitParam = n) ∧
    GETdeploy ctx redis limitParam multi csv
      = getLatestDeployRecords ctx redis (effectiveLimitJs limitParam).toNat
          (parseProjects multi csv) := by
  refine ⟨?_, ?_, ?_, ?_, ?_, ?_, rfl⟩
  · intro h
    rw [h]
    rfl
  · intro h
    rw [h]
    rfl
  · intro n h
    rw [h]
    simp only [effectiveLimitJs, numOr]
    by_cases hn0 : n = 0
    · rw [if_pos hn0]
      constructor <;> omega
    · rw [if_neg hn0]
      constructor <;> omega
  · intro n h hn
    rw [h]
    simp only [effectiveLimitJs, numOr]
    rw [if_neg (by omega : ¬ n = 0)]
    omega
  · intro n h hn
    rw [h]
    simp only [effectiveLimitJs, numOr]
    rw [if_neg (by omega : ¬ n = 0)]
    omega
  · intro n h h1 h2
    rw [h]
    simp only [effectiveLimitJs, numOr]
    rw [if_neg (by omega : ¬ n = 0)]
    omega

/-- C8, evaluated at the failing input: the body `bBogus` (all required
fields truthy, status the non-enumerated string `bogus`) passes the
truthiness validation — the only runtime check before the unchecked cast —
and is persisted, the stored record carrying the status `bogus`, which is
none of the four `DeployStatus` names.  This exhibits the code bug: the
claim, the spec data model, and the `DeployStatus` union type of the code
itself all say no such record can be stored. -/
theorem status_not_runtime_validated :
    POSTdeploy ctxW idA bBogus (some redisE)
      = (Except.ok (addedRecord ctxW idA payloadBogus stE),
         some (redisAfterAdd ctxW idA payloadBogus redisE)) ∧
    (addedRecord ctxW idA payloadBogus stE).status = "bogus" ∧
    "bogus" ∉ [statusName DeployStatus.success, statusName DeployStatus.failed,
      statusName DeployStatus.running, statusName DeployStatus.canceled] :=
  ⟨rfl, rfl, by decide⟩

/-- C1 counterexample: over a store already holding one newer record, the
freshly created record is within the window, the limit is 1, there is no
project filter, and yet the record is absent from the returned list. -/
theorem create_then_visible_counterexample :
    ctxW.parseDate (addedRecord ctxW idA payloadA stB).deployedAt = some 50 ∧
    ctxW.nowMs - THIRTY_DAYS_MS ≤ 50 ∧
    getLatestDeployRecords ctxW (some (redisAfterAdd ctxW idA payloadA redisB)) 1 none
      = Except.ok [recB] ∧
    addedRecord ctxW idA payloadA stB ∉ [recB] :=
  ⟨rfl, by decide, rfl, by decide⟩

/-- C1 witness: the amended round trip at the empty store. -/
theorem create_then_visible_witness :
    ∃ l, getLatestDeployRecords ctxW (some (redisAfterAdd ctxW idA payloadA redisE)) 1 none
        = Except.ok l ∧ addedRecord ctxW idA payloadA stE ∈ l :=
  create_then_visible ctxW redisE idA payloadA 1 50 rfl rfl rfl (by decide) (by decide)
    (by decide) (by decide) (by decide) (by decide) (by decide)

/-- C2 witness: the single returned record of a concrete store is within the
window. -/
theorem retention_window_enforced_witness :
    ctxW.nowMs - THIRTY_DAYS_MS ≤ 90 :=
  retention_window_enforced ctxW redisB 5 none [recB] recB 90 rfl (by decide) rfl

/-- C9 witness: the returned list of a concrete store respects the limit. -/
theorem result_length_le_limit_witness :
    1 ≤ 5 ∧ ([recB] : List DeployRecord).length ≤ 5 :=
  ⟨by decide, result_length_le_limit ctxW redisB 5 none [recB] (by decide) rfl⟩

/-- C5 witness: a fully failing backend reads as the empty list, and a missing
backend throws. -/
theorem read_failure_yields_empty_witness :
    getLatestDeployRecords ctxW (some redisF) 5 none = Except.ok [] ∧
    getLatestDeployRecords ctxW none 5 none = Except.error redisNotConfiguredMsg :=
  ⟨(read_failure_yields_empty ctxW 5 none redisF).2.2.1 rfl,
   (read_failure_yields_empty ctxW 5 none redisF).2.1⟩

/-- C6 counterexample: both sources carry the id `a`, yet the returned list
(under a current time past the retention window) holds no record with that
id, refuting the exactly-one phrasing. -/
theorem dedup_time_index_wins_counterexample :
    (∃ x ∈ fromZsetOf redis6, x.id = "a") ∧
    (∃ x ∈ fromListOf redis6, x.id = "a") ∧
    ∃ l, getLatestDeployRecords ctxOld (some redis6) 10 none = Except.ok l ∧
      (l.filter (fun x => decide (x.id = "a"))).length = 0 :=
  ⟨⟨recZ, by decide, rfl⟩, ⟨recL, by decide, rfl⟩, [], rfl, rfl⟩

/-- C6 witness: the amended dedup statement at a concrete store. -/
theorem dedup_time_index_wins_witness :
    (([recB] : List DeployRecord).map (fun v => v.id)).Nodup ∧
    (∀ rec ∈ ([recB] : List DeployRecord),
      (∃ x ∈ fromZsetOf redisB, x.id = rec.id) → rec ∈ fromZsetOf redisB) :=
  dedup_time_index_wins ctxW redisB 5 none [recB] rfl

/-- C4 witness: an absent timestamp resolves to the current instant and a
parsable one to its ISO rendering. -/
theorem deployedAt_resolution_witness :
    (addedRecord ctxW idA payloadN stE).deployedAt = ctxW.toISO ctxW.nowMs ∧
    (addedRecord ctxW idA payloadA stE).deployedAt = ctxW.toISO 50 :=
  ⟨(deployedAt_resolution ctxW idA payloadN stE).1 rfl,
   (deployedAt_resolution ctxW idA payloadA stE).2.2.2 ("T50") 50 rfl (by decide) rfl⟩

/-- C3 witness: a body whose operator field is absent has a first falsy key,
and the handler rejects it with the 400 naming `operator`, the store
untouched. -/
theorem missing_field_rejected_route_witness :
    (∃ k, firstFalsyKey bMissOp = some k) ∧
    POSTdeploy ctxW idA bMissOp (some redisE)
      = (Except.error (400, missingFieldMsg ("operator")), some redisE) :=
  ⟨(missing_field_rejected_route ctxW idA bMissOp (some redisE)).1
     (Or.inr (Or.inr (Or.inl rfl))),
   (missing_field_rejected_route ctxW idA bMissOp (some redisE)).2 ("operator") rfl⟩

/-- C7 witness: the default, the zero-falsy default, and the three clamping
regimes at concrete values. -/
theorem limit_defaulted_then_clamped_witness :
    effectiveLimitJs none = 20 ∧ effectiveLimitJs (some 0) = 20 ∧
    effectiveLimitJs (some 1000) = 50 ∧ effectiveLimitJs (some (-5)) = 1 ∧
    effectiveLimitJs (some 7) = 7 :=
  ⟨(limit_defaulted_then_clamped ctxW none none [] none).1 rfl,
   (limit_defaulted_then_clamped ctxW none (some 0) [] none).2.1 rfl,
   ((limit_defaulted_then_clamped ctxW none (some 1000) [] none).2.2.2.2.1 1000 rfl
     (by decide)),
   ((limit_defaulted_then_clamped ctxW none (some (-5)) [] none).2.2.2.1 (-5) rfl
     (by decide)),
   ((limit_defaulted_then_clamped ctxW none (some 7) [] none).2.2.2.2.2.1 7 rfl
     (by decide) (by decide))⟩

/-- C10 witness: a duplicated, unsorted project set reads back sorted and
duplicate-free. -/
theorem projects_sorted_and_nodup_witness :
    List.Sorted (fun a b => strLe a b = true) ["p1", "p2"] ∧
    (["p1", "p2"] : List String).Nodup :=
  projects_sorted_and_nodup (some redisP) ["p1", "p2"] rfl

end DeployList
